import Mathlib

/-!
Verification development for the changes-uploader extension.

The definitions below are a shallow embedding of the two core components:
the change-set tracker (`src/fileTracker.ts`) and the transfer engine with
its host-alias config resolver (`src/fileListProvider.ts`).  External
effects (filesystem, git subprocess results, the SFTP transport, the
cancellation token) are modelled as explicit environment records; JavaScript
numbers appearing in progress arithmetic are modelled as exact rationals.

JavaScript string primitives (`trim`, `substring`, `split`, `startsWith`,
`toLowerCase`) are modelled on the character list underlying `String`,
which for the ASCII data the program manipulates agrees with the UTF-16
indexing JavaScript uses.
-/

/-- Splits a character list at every occurrence of `sep`, the behaviour of
JavaScript `split` with a single-character separator: `n` separators yield
`n + 1` (possibly empty) fields. -/
def splitOnChar (sep : Char) : List Char → List (List Char)
  | [] => [[]]
  | c :: rest =>
    match splitOnChar sep rest with
    | [] => [[]]
    | cur :: rs => if c = sep then [] :: cur :: rs else (c :: cur) :: rs

/-- Splits a character list at every maximal run matched by `p` and drops
empty fields, the behaviour of JavaScript `split(/\s+/)` on trimmed input. -/
def splitOnPred (p : Char → Bool) : List Char → List (List Char)
  | [] => [[]]
  | c :: rest =>
    match splitOnPred p rest with
    | [] => [[]]
    | cur :: rs => if p c then [] :: cur :: rs else (c :: cur) :: rs

/-- Whitespace trimming on both ends, JavaScript `trim()`. -/
def trimChars (cs : List Char) : List Char :=
  ((cs.dropWhile Char.isWhitespace).reverse.dropWhile Char.isWhitespace).reverse

/-- JavaScript `trim()` on a string. -/
def strTrim (s : String) : String := ⟨trimChars s.data⟩

/-- JavaScript `substring(0, n)`. -/
def strTake (s : String) (n : Nat) : String := ⟨s.data.take n⟩

/-- JavaScript `substring(n)`. -/
def strDrop (s : String) (n : Nat) : String := ⟨s.data.drop n⟩

/-- JavaScript `startsWith`. -/
def strStartsWith (s pre : String) : Bool :=
  decide (s.data.take pre.data.length = pre.data)

/-- ASCII lower-casing of one character, the effect of JavaScript
`toLowerCase` on the ASCII keywords the config parser compares. -/
def asciiLower (c : Char) : Char :=
  if 'A' ≤ c ∧ c ≤ 'Z' then Char.ofNat (c.toNat + 32) else c

/-- JavaScript `toLowerCase` (ASCII range). -/
def strToLower (s : String) : String := ⟨s.data.map asciiLower⟩

/-- Models Node `path.join(a, b)` for the shapes the program produces:
a plain concatenation with a single separator, collapsing a duplicated
separator at the boundary (the only normalization the program relies on,
in the tilde expansion of `IdentityFile`). -/
def pathJoin (a b : String) : String :=
  if strStartsWith b "/" then a ++ b else a ++ "/" ++ b

/-- Models Node `path.basename`: the last forward-slash-separated segment. -/
def basename (p : String) : String :=
  ⟨(splitOnChar '/' p.data).getLastD p.data⟩

/-- Models `stdout.split('\n').filter(line => line.trim() !== '')`, the line
splitting applied to every git command output the tracker consumes. -/
def splitLines (stdout : String) : List String :=
  ((splitOnChar '\n' stdout.data).map (fun cs => (⟨cs⟩ : String))).filter
    (fun line => strTrim line ≠ "")

/-- Models JavaScript `parseInt(s, 10)` on a trimmed argument: an optional
sign, then the longest digit run; `none` when no digits lead (`NaN`). -/
def jsParseInt (s : String) : Option Int :=
  let signed : Int × List Char :=
    match s.data with
    | '-' :: r => (-1, r)
    | '+' :: r => (1, r)
    | r => (1, r)
  let digits := signed.2.takeWhile (fun c => decide ('0' ≤ c ∧ c ≤ '9'))
  if digits = [] then none
  else some (signed.1 * ((digits.foldl (fun n c => n * 10 + (c.toNat - 48)) 0 : Nat) : Int))

/-- One tracked file, field for field the `ITrackedFile` interface. -/
structure ITrackedFile where
  filePath : String
  fileName : String
  status : String
  lastModified : Nat
deriving Repr, DecidableEq

/-- The filesystem facts the code consults: `fs.existsSync`, `fs.statSync`
(only `mtimeMs` is read), and `fs.readFileSync` (`none` models a throw). -/
structure FSView where
  fsExists : String → Bool
  mtimeMs : String → Nat
  readFile : String → Option String

/-- Results of the git commands the tracker runs, per working directory /
repository root; `none` models a nonzero exit or spawn failure (a rejected
promise from `executeGitCommand`). -/
structure GitView where
  revParse : String → Option String
  statusOut : String → Option String
  diffTree : String → Option String

/-- The classification switch inside `scanGitStatus`:
codes starting with `A` or `M` are `staged`, codes starting with `?` are
`untracked`, everything else is `unstaged`. -/
def classifyStatus (statusCode : String) : String :=
  if strStartsWith statusCode "A" || strStartsWith statusCode "M" then "staged"
  else if strStartsWith statusCode "?" then "untracked"
  else "unstaged"

/-- The status actually assigned during a scan for a raw two-character
porcelain code: the code transcribes `line.substring(0, 2).trim()` before
the classification switch, so the raw code is trimmed first. -/
def statusOfRawCode (raw : String) : String :=
  classifyStatus (strTrim raw)

/-- The absolute path a porcelain status line is resolved to:
`path.join(repoRoot, line.substring(3).trim())`. -/
def lineTargetPath (repoRoot line : String) : String :=
  pathJoin repoRoot (strTrim (strDrop line 3))

/-- Transcribes the in-place update of the entry found by
`findIndex(f => f.filePath === filePath)`: the first entry with the given
path gets the new status and mtime, everything else is untouched. -/
def updateFirst : List ITrackedFile → String → String → Nat → List ITrackedFile
  | [], _, _, _ => []
  | f :: rest, fp, st, mt =>
    if f.filePath = fp then { f with status := st, lastModified := mt } :: rest
    else f :: updateFirst rest fp st mt

/-- The body of the `for` loop in `scanGitStatus` for one porcelain line:
skip when the file does not exist on disk, otherwise classify the trimmed
status code and upsert (update the existing entry found by `findIndex`,
else push a new entry at the end). -/
def processLine (fs : FSView) (repoRoot : String) (files : List ITrackedFile)
    (line : String) : List ITrackedFile :=
  let filePath := lineTargetPath repoRoot line
  if fs.fsExists filePath then
    let status := statusOfRawCode (strTake line 2)
    if files.any (fun f => decide (f.filePath = filePath)) then
      updateFirst files filePath status (fs.mtimeMs filePath)
    else
      files ++ [{ filePath := filePath, fileName := basename filePath,
                  status := status, lastModified := fs.mtimeMs filePath }]
  else files

/-- `scanGitStatus(repoRoot)`: on git failure the catch leaves the tracked
list untouched; otherwise every nonblank line of the porcelain output is
processed in order. -/
def scanGitStatus (fs : FSView) (repoRoot : String) (statusResult : Option String)
    (files : List ITrackedFile) : List ITrackedFile :=
  match statusResult with
  | none => files
  | some stdout => (splitLines stdout).foldl (processLine fs repoRoot) files

/-- One folder's step of `updateFileStatus()` (the tracker refresh): resolve
the repository root (`git rev-parse --show-toplevel`, trimmed); on success
scan that root's porcelain status into the tracked list.  Folders without a
repository, and failed scans, leave the list as it was. -/
def refreshFolder (fs : FSView) (git : GitView) (files : List ITrackedFile)
    (folder : String) : List ITrackedFile :=
  match git.revParse folder with
  | none => files
  | some out => scanGitStatus fs (strTrim out) (git.statusOut (strTrim out)) files

/-- The whole refresh: fold the per-folder step over the workspace folders. -/
def updateFileStatus (fs : FSView) (git : GitView) (folders : List String)
    (files : List ITrackedFile) : List ITrackedFile :=
  folders.foldl (refreshFolder fs git) files

/-- `removeFile(filePath)`: filter the entry out; report success exactly when
the length changed. -/
def removeFile (files : List ITrackedFile) (fp : String) :
    List ITrackedFile × Bool :=
  let remaining := files.filter (fun f => decide (f.filePath ≠ fp))
  (remaining, decide (remaining.length ≠ files.length))

/-- `isFileTracked(filePath)`. -/
def isFileTracked (files : List ITrackedFile) (fp : String) : Bool :=
  files.any (fun f => decide (f.filePath = fp))

/-- `getTrackedFiles()` returns a defensive copy; as a pure value the copy is
the list itself. -/
def getTrackedFiles (files : List ITrackedFile) : List ITrackedFile :=
  files

/-- The committed-file list of `handleGitCommit` for one repository:
each nonblank line of `git diff-tree --no-commit-id --name-only -r HEAD`
joined onto the repository root. -/
def committedPaths (repoRoot stdout : String) : List String :=
  (((splitOnChar '\n' stdout.data).map (fun cs => (⟨cs⟩ : String))).filter
    (fun l => strTrim l ≠ "")).map (fun f => pathJoin repoRoot f)

/-- The per-repository removal step of `handleGitCommit`: keep exactly the
entries whose path is not in the committed list. -/
def commitRemoveOne (repoRoot stdout : String) (files : List ITrackedFile) :
    List ITrackedFile :=
  files.filter (fun f => decide (f.filePath ∉ committedPaths repoRoot stdout))

/-- `handleGitCommit()`: iterate the known repositories; a failing
`diff-tree` throws into the catch, so the current and all remaining
repositories are skipped while earlier removals stand. -/
def handleGitCommit (git : GitView) (repos : List String)
    (files : List ITrackedFile) : List ITrackedFile :=
  match repos with
  | [] => files
  | root :: rest =>
    match git.diffTree root with
    | none => files
    | some out => handleGitCommit git rest (commitRemoveOne root out files)

/-- The resolved connection profile of `readSSHConfig`:
`{ hostName?, user?, port?, privateKey? }`. -/
structure SSHConfig where
  hostName : Option String := none
  user : Option String := none
  port : Option Int := none
  privateKey : Option String := none
deriving Repr, DecidableEq

/-- The default system-level config path, `path.join(os.homedir(), '.ssh', 'config')`. -/
def defaultSSHConfigPath (homeDir : String) : String :=
  pathJoin (pathJoin homeDir ".ssh") "config"

/-- The file-selection logic at the top of `readSSHConfig`: the system
default path is used whenever it exists; only when it is absent is the
caller-supplied path consulted (a nonempty path that exists); otherwise the
function throws (`none`). -/
def chooseConfigFile (fs : FSView) (homeDir configPath : String) : Option String :=
  let defaultPath := defaultSSHConfigPath homeDir
  if fs.fsExists defaultPath then some defaultPath
  else if configPath ≠ "" then
    if fs.fsExists configPath then some configPath else none
  else none

/-- Parser state while walking config lines: whether the cursor is inside a
`Host` block matching the requested alias, and the profile gathered so far. -/
structure SSHParseState where
  inTarget : Bool
  cfg : SSHConfig

/-- One iteration of the line loop in `readSSHConfig`: skip comments and
blanks; a `Host` line re-targets the block (case-insensitive keyword,
whitespace-separated alias list); inside the target block the keys
`HostName`, `User`, `Port` (ignoring unparsable values) and `IdentityFile`
(with `~` expanded against the home directory) update the profile. -/
def parseSSHConfigLine (homeDir host : String) (st : SSHParseState)
    (rawLine : String) : SSHParseState :=
  let t := strTrim rawLine
  if strStartsWith t "#" || decide (t = "") then st
  else if strStartsWith (strToLower t) "host " then
    let hosts := ((splitOnPred Char.isWhitespace (strTrim (strDrop t 5)).data).map
      (fun cs => (⟨cs⟩ : String))).filter (fun h => h ≠ "")
    { st with inTarget := decide (host ∈ hosts) }
  else if st.inTarget then
    if strStartsWith (strToLower t) "hostname " then
      { st with cfg := { st.cfg with hostName := some (strTrim (strDrop t 9)) } }
    else if strStartsWith (strToLower t) "user " then
      { st with cfg := { st.cfg with user := some (strTrim (strDrop t 5)) } }
    else if strStartsWith (strToLower t) "port " then
      match jsParseInt (strTrim (strDrop t 5)) with
      | some p => { st with cfg := { st.cfg with port := some p } }
      | none => st
    else if strStartsWith (strToLower t) "identityfile " then
      let idf := strTrim (strDrop t 13)
      let key := if strStartsWith idf "~" then pathJoin homeDir (strDrop idf 1) else idf
      { st with cfg := { st.cfg with privateKey := some key } }
    else st
  else st

/-- The whole-line parse of `readSSHConfig` over the chosen file's content. -/
def parseSSHConfig (homeDir host content : String) : SSHConfig :=
  (((splitOnChar '\n' content.data).map (fun cs => (⟨cs⟩ : String))).foldl
    (parseSSHConfigLine homeDir host) ⟨false, {}⟩).cfg

/-- `readSSHConfig(configPath, host)`: choose the config file (system default
first, supplied path as fallback), read it (`none` when `readFileSync`
throws), and parse it for `host`'s block. `none` is the thrown error. -/
def readSSHConfig (fs : FSView) (homeDir configPath host : String) :
    Option SSHConfig :=
  match chooseConfigFile fs homeDir configPath with
  | none => none
  | some p =>
    match fs.readFile p with
    | none => none
    | some content => some (parseSSHConfig homeDir host content)

/-- The three user settings `uploadFile`/`uploadAllFiles` read from the
`changesUploader` configuration. -/
structure UploadSettings where
  sshConfigPath : String
  remoteHost : String
  remoteRootPath : String

/-- Environment of one `uploadAllFiles` run: the filesystem, the home
directory, whether `client.connect` would succeed, the cancellation token
sampled before each loop iteration, and the per-path outcome of
`sftpUploadFileWithConnection`. -/
structure BatchEnv where
  fs : FSView
  homeDir : String
  connectOk : Bool
  cancelAt : Nat → Bool
  transferOk : String → Bool

/-- State threaded through the per-file loop of `uploadAllFiles`. -/
structure LoopState where
  reports : List (Rat × String)
  attempted : List String
  uploadedCount : Nat
  cancelled : Bool
deriving Repr, DecidableEq

/-- Observable outcome of one `uploadAllFiles` run.  `reports` are the
`progress.report` calls issued inside the per-file loop (the constant
initial and final reports are not per-item and are omitted); `attempted`
lists the paths passed to `sftpUploadFileWithConnection` in order;
`cancelled` records that the cancellation branch ran (the user-cancel log
line followed by `break`); `closeCount` counts `sftp.end()` calls. -/
structure BatchResult where
  connectCalled : Bool
  sessionOpened : Bool
  reports : List (Rat × String)
  attempted : List String
  uploadedCount : Nat
  cancelled : Bool
  closeCount : Nat
  batchFailed : Bool
deriving Repr, DecidableEq

/-- The per-file loop of `uploadAllFiles`: before each item the token is
checked (break and mark cancelled when set); otherwise the progress report
`(100 / totalFiles) * uploadedCount` with the current file's base name is
issued, the transfer is attempted, and only a successful transfer bumps
`uploadedCount` — a throwing transfer is caught and the loop continues. -/
def runLoop (env : BatchEnv) (totalFiles : Nat) :
    List ITrackedFile → Nat → LoopState → LoopState
  | [], _, st => st
  | f :: rest, i, st =>
    if env.cancelAt i then { st with cancelled := true }
    else
      runLoop env totalFiles rest (i + 1)
        { reports := st.reports ++
            [((100 / (totalFiles : Rat)) * (st.uploadedCount : Rat),
              "正在上传: " ++ basename f.filePath)],
          attempted := st.attempted ++ [f.filePath],
          uploadedCount := if env.transferOk f.filePath then st.uploadedCount + 1
                           else st.uploadedCount,
          cancelled := st.cancelled }

/-- Evaluation of the `privateKey` argument of `client.connect` in
`uploadAllFiles`: when a key path is configured, `fs.readFileSync` runs
before `connect`, and its throw aborts the batch pre-connect. -/
def keyArgOk (fs : FSView) (cfg : SSHConfig) : Bool :=
  match cfg.privateKey with
  | none => true
  | some k => (fs.readFile k).isSome

/-- A `BatchResult` with nothing done. -/
def emptyBatchResult : BatchResult :=
  { connectCalled := false, sessionOpened := false, reports := [],
    attempted := [], uploadedCount := 0, cancelled := false,
    closeCount := 0, batchFailed := false }

/-- `uploadAllFiles()`: early return when nothing is tracked or a setting is
missing (before the progress UI); then, inside try/catch/finally: resolve
the profile with `readSSHConfig` (its throw is caught with the session still
unopened), evaluate the connect arguments (the key file read can throw
pre-connect), connect, run the per-file loop, and in `finally` close the
session exactly when it was assigned.  No credential validation happens on
this path. -/
def uploadAllFiles (env : BatchEnv) (settings : UploadSettings)
    (trackedFiles : List ITrackedFile) : BatchResult :=
  if trackedFiles.length = 0 then emptyBatchResult
  else if settings.sshConfigPath = "" ∨ settings.remoteHost = "" ∨
      settings.remoteRootPath = "" then emptyBatchResult
  else
    match readSSHConfig env.fs env.homeDir settings.sshConfigPath settings.remoteHost with
    | none => { emptyBatchResult with batchFailed := true }
    | some cfg =>
      if keyArgOk env.fs cfg = false then
        { emptyBatchResult with batchFailed := true }
      else if env.connectOk = false then
        { emptyBatchResult with connectCalled := true, batchFailed := true }
      else
        let st := runLoop env trackedFiles.length trackedFiles 0 ⟨[], [], 0, false⟩
        { connectCalled := true, sessionOpened := true,
          reports := st.reports, attempted := st.attempted,
          uploadedCount := st.uploadedCount, cancelled := st.cancelled,
          closeCount := 1, batchFailed := false }

/-- Environment of the single-file path: filesystem, home directory,
connect outcome, the workspace folder owning the file (`none` throws after
connect), and the `sftp.put` outcome. -/
structure SingleEnv where
  fs : FSView
  homeDir : String
  connectOk : Bool
  workspaceRoot : Option String
  putOk : Bool

/-- Observable outcome of one `sftpUploadFile` run. -/
structure SingleResult where
  connectCalled : Bool
  sessionOpened : Bool
  succeeded : Bool
  closeCount : Nat
deriving Repr, DecidableEq

/-- A `SingleResult` for the paths that fail before `client.connect`. -/
def singleFailBeforeConnect : SingleResult :=
  { connectCalled := false, sessionOpened := false, succeeded := false,
    closeCount := 0 }

/-- `sftpUploadFile()` (the single-file transfer): resolve the profile
(unless one was supplied), then validate — a missing user, a missing key
path, or a key path that does not exist on disk each throw before any
connection; then connect (the key read also precedes it), compute the
remote path (throwing when no workspace owns the file), transfer, and close
the session in `finally` exactly when it was assigned. -/
def sftpUploadFile (env : SingleEnv) (sshConfigPath remoteHost : String)
    (sshConfig : Option SSHConfig) : SingleResult :=
  let cfgOpt := match sshConfig with
    | some c => some c
    | none => readSSHConfig env.fs env.homeDir sshConfigPath remoteHost
  match cfgOpt with
  | none => singleFailBeforeConnect
  | some cfg =>
    match cfg.user with
    | none => singleFailBeforeConnect
    | some _ =>
      match cfg.privateKey with
      | none => singleFailBeforeConnect
      | some key =>
        if env.fs.fsExists key = false then singleFailBeforeConnect
        else if (env.fs.readFile key).isNone then singleFailBeforeConnect
        else if env.connectOk = false then
          { connectCalled := true, sessionOpened := false, succeeded := false,
            closeCount := 0 }
        else
          let ok := match env.workspaceRoot with
            | none => false
            | some _ => env.putOk
          { connectCalled := true, sessionOpened := true, succeeded := ok,
            closeCount := 1 }

/-- `uploadFile()` (the command entry point): missing file or missing
settings return before any transfer; otherwise delegate to `sftpUploadFile`
with no pre-resolved profile. -/
def uploadFile (env : SingleEnv) (settings : UploadSettings)
    (filePath : String) : SingleResult :=
  if env.fs.fsExists filePath = false then singleFailBeforeConnect
  else if settings.sshConfigPath = "" ∨ settings.remoteHost = "" ∨
      settings.remoteRootPath = "" then singleFailBeforeConnect
  else sftpUploadFile env settings.sshConfigPath settings.remoteHost none

/-- The provider's `uploadFile` as a transformer of the tracker state it can
reach through `this.fileTracker`: the method never calls a tracker mutator,
so the tracked list component is returned as received. -/
def providerUploadFile (st : List ITrackedFile) (env : SingleEnv)
    (settings : UploadSettings) (filePath : String) :
    List ITrackedFile × SingleResult :=
  (st, uploadFile env settings filePath)

/-- The provider's `uploadAllFiles` as a transformer of the tracker state:
it reads `getTrackedFiles()` and never calls a tracker mutator. -/
def providerUploadAllFiles (st : List ITrackedFile) (env : BatchEnv)
    (settings : UploadSettings) : List ITrackedFile × BatchResult :=
  (st, uploadAllFiles env settings (getTrackedFiles st))

/-- The provider's `removeFile`, which does mutate the tracker through
`fileTracker.removeFile`. -/
def providerRemoveFile (st : List ITrackedFile) (filePath : String) :
    List ITrackedFile × Bool :=
  removeFile st filePath

/-- The file paths of the tracked entries, in order. -/
def pathsOf (files : List ITrackedFile) : List String :=
  files.map (fun f => f.filePath)

/-- The paths a successful scan of `stdout` reports that also exist on disk —
exactly the paths the scan loop upserts. -/
def scannedExistingPaths (fs : FSView) (repoRoot stdout : String) : List String :=
  ((splitLines stdout).map (lineTargetPath repoRoot)).filter fs.fsExists

/-- The paths one workspace folder's scan reports during `updateFileStatus`
(empty when the folder has no repository or the scan fails). -/
def folderReportedPaths (git : GitView) (folder : String) : List String :=
  match git.revParse folder with
  | none => []
  | some out =>
    match git.statusOut (strTrim out) with
    | none => []
    | some stdout => (splitLines stdout).map (lineTargetPath (strTrim out))

/-- All paths reported across the workspace folders of one refresh. -/
def scanReportedPaths (git : GitView) (folders : List String) : List String :=
  folders.flatMap (folderReportedPaths git)

/-- Closed form of the reports emitted by the per-file loop starting from
`uploadedCount = u`: the increment before an item is `100 / n` times the
successes accumulated so far. -/
def loopSpecReports (n : Nat) (ok : String → Bool) : Nat → List ITrackedFile → List (Rat × String)
  | _, [] => []
  | u, f :: rest =>
    ((100 / (n : Rat)) * (u : Rat), "正在上传: " ++ basename f.filePath) ::
      loopSpecReports n ok (if ok f.filePath then u + 1 else u) rest

/-- How many of the given items transfer successfully. -/
def countSuccesses (ok : String → Bool) (files : List ITrackedFile) : Nat :=
  (files.filter (fun f => ok f.filePath)).length

/-- A sample tracked entry. -/
def trackedA : ITrackedFile := ⟨"/ws/a.ts", "a.ts", "unstaged", 5⟩

/-- Sample tracked entries for batch scenarios. -/
def trackedB : ITrackedFile := ⟨"/ws/b.ts", "b.ts", "staged", 6⟩

def trackedC : ITrackedFile := ⟨"/ws/c.ts", "c.ts", "untracked", 7⟩

def trackedD : ITrackedFile := ⟨"/ws/d.ts", "d.ts", "unstaged", 8⟩

def trackedE : ITrackedFile := ⟨"/ws/e.ts", "e.ts", "unstaged", 9⟩

/-- A filesystem on which only the system default SSH config exists; it
names no `User`, so the resolved profile has none. -/
def fsC1 : FSView :=
  { fsExists := fun p => decide (p = "/home/u/.ssh/config"),
    mtimeMs := fun _ => 0,
    readFile := fun p =>
      if p = "/home/u/.ssh/config" then some "Host myhost\nHostName 1.2.3.4"
      else none }

def settingsC1 : UploadSettings := ⟨"/custom/conf", "myhost", "/remote"⟩

def envC1 : BatchEnv :=
  { fs := fsC1, homeDir := "/home/u", connectOk := true,
    cancelAt := fun _ => false, transferOk := fun _ => true }

/-- A filesystem whose default SSH config names an identity file that exists
but cannot be read. -/
def fsC1b : FSView :=
  { fsExists := fun p => decide (p = "/home/u/.ssh/config" ∨ p = "/home/u/.ssh/id"),
    mtimeMs := fun _ => 0,
    readFile := fun p =>
      if p = "/home/u/.ssh/config" then
        some "Host myhost\nUser u1\nIdentityFile ~/.ssh/id"
      else none }

def envC1b : BatchEnv :=
  { fs := fsC1b, homeDir := "/home/u", connectOk := true,
    cancelAt := fun _ => false, transferOk := fun _ => true }

/-- A single-file environment over the valid filesystem. -/
def envC1single : SingleEnv :=
  { fs := fsC1, homeDir := "/home/u", connectOk := true,
    workspaceRoot := some "/ws", putOk := true }

/-- A filesystem on which both the default and the caller-supplied config
exist, with distinguishable contents. -/
def fsC3 : FSView :=
  { fsExists := fun p => decide (p = "/home/u/.ssh/config" ∨ p = "/custom/conf"),
    mtimeMs := fun _ => 0,
    readFile := fun p =>
      if p = "/home/u/.ssh/config" then some "Host alias\nUser default-user"
      else if p = "/custom/conf" then some "Host alias\nUser custom-user"
      else none }

/-- A filesystem with a default SSH config resolving to a usable profile
with no identity file. -/
def fsOk : FSView :=
  { fsExists := fun p => decide (p = "/home/u/.ssh/config"),
    mtimeMs := fun _ => 0,
    readFile := fun p =>
      if p = "/home/u/.ssh/config" then some "Host myhost\nUser u1"
      else none }

def settingsOk : UploadSettings := ⟨"/cfg", "myhost", "/remote"⟩

def cfgOk : SSHConfig := { user := some "u1" }

/-- Batch environment: everything succeeds, no cancellation. -/
def envC4 : BatchEnv :=
  { fs := fsOk, homeDir := "/home/u", connectOk := true,
    cancelAt := fun _ => false, transferOk := fun _ => true }

/-- Batch environment: the transfer of `/ws/b.ts` throws, all else succeeds. -/
def envC6 : BatchEnv :=
  { fs := fsOk, homeDir := "/home/u", connectOk := true,
    cancelAt := fun _ => false, transferOk := fun p => decide (p ≠ "/ws/b.ts") }

/-- Batch environment: cancellation is signaled once two files completed. -/
def envC7 : BatchEnv :=
  { fs := fsOk, homeDir := "/home/u", connectOk := true,
    cancelAt := fun i => decide (2 ≤ i), transferOk := fun _ => true }

/-- A filesystem where every path exists (mtime 7) and no file is readable. -/
def fsAll : FSView :=
  { fsExists := fun _ => true, mtimeMs := fun _ => 7, readFile := fun _ => none }

/-- Git results for the commit-removal scenario. -/
def gitC8 : GitView :=
  { revParse := fun _ => none, statusOut := fun _ => none,
    diffTree := fun r => if r = "/repo" then some "a.ts\nc.ts" else none }

def fileA8 : ITrackedFile := ⟨"/repo/a.ts", "a.ts", "staged", 1⟩

def fileB8 : ITrackedFile := ⟨"/repo/b.ts", "b.ts", "unstaged", 2⟩

def fileC8 : ITrackedFile := ⟨"/repo/c.ts", "c.ts", "untracked", 3⟩

/-- Git results for the refresh scenario: one workspace folder, one
repository, a scan reporting only `a.ts`. -/
def gitC9 : GitView :=
  { revParse := fun w => if w = "/ws" then some "/repo\n" else none,
    statusOut := fun r => if r = "/repo" then some " M a.ts" else none,
    diffTree := fun _ => none }

/-- A tracked entry no scan reports. -/
def trackedZ : ITrackedFile := ⟨"/repo/zzz.ts", "zzz.ts", "staged", 4⟩

lemma countSuccesses_nil (ok : String → Bool) : countSuccesses ok [] = 0 := rfl

lemma countSuccesses_cons (ok : String → Bool) (f : ITrackedFile)
    (rest : List ITrackedFile) :
    countSuccesses ok (f :: rest) =
      (if ok f.filePath then 1 else 0) + countSuccesses ok rest := by
  by_cases h : ok f.filePath <;> simp [countSuccesses, h, Nat.add_comm]

lemma loopSpecReports_length (n : Nat) (ok : String → Bool) :
    ∀ (files : List ITrackedFile) (u : Nat),
    (loopSpecReports n ok u files).length = files.length := by
  intro files
  induction files with
  | nil => intro u; rfl
  | cons f rest ih => intro u; simp [loopSpecReports, ih]

lemma runLoop_noCancel (env : BatchEnv) (n : Nat)
    (h : ∀ j, env.cancelAt j = false) :
    ∀ (files : List ITrackedFile) (i : Nat) (st : LoopState),
    runLoop env n files i st =
      { reports := st.reports ++ loopSpecReports n env.transferOk st.uploadedCount files,
        attempted := st.attempted ++ pathsOf files,
        uploadedCount := st.uploadedCount + countSuccesses env.transferOk files,
        cancelled := st.cancelled } := by
  intro files
  induction files with
  | nil =>
    intro i st
    simp [runLoop, loopSpecReports, countSuccesses, pathsOf]
  | cons f rest ih =>
    intro i st
    rw [runLoop, if_neg (by simp [h i])]
    rw [ih (i + 1)]
    by_cases hok : env.transferOk f.filePath <;>
      simp [loopSpecReports, countSuccesses_cons, pathsOf, hok,
        List.append_assoc, Nat.add_assoc]

lemma runLoop_cancel (env : BatchEnv) (n k : Nat)
    (h : ∀ j, env.cancelAt j = decide (k ≤ j)) :
    ∀ (files : List ITrackedFile) (i : Nat) (st : LoopState),
    i ≤ k → k - i < files.length →
    runLoop env n files i st =
      { reports := st.reports ++
          loopSpecReports n env.transferOk st.uploadedCount (files.take (k - i)),
        attempted := st.attempted ++ pathsOf (files.take (k - i)),
        uploadedCount := st.uploadedCount +
          countSuccesses env.transferOk (files.take (k - i)),
        cancelled := true } := by
  intro files
  induction files with
  | nil => intro i st hik hlen; simp at hlen
  | cons f rest ih =>
    intro i st hik hlen
    by_cases hki : k ≤ i
    · have hkk : i = k := le_antisymm hik hki
      subst hkk
      rw [runLoop, if_pos (by rw [h]; simp)]
      simp [Nat.sub_self, loopSpecReports, countSuccesses, pathsOf]
    · have hc : env.cancelAt i = false := by rw [h]; simp; omega
      rw [runLoop, if_neg (by simp [hc])]
      rw [ih (i + 1) _ (by omega) (by simp at hlen ⊢; omega)]
      have htake : (f :: rest).take (k - i) = f :: rest.take (k - (i + 1)) := by
        have hsub : k - i = (k - (i + 1)) + 1 := by omega
        rw [hsub]
        rfl
      rw [htake]
      by_cases hok : env.transferOk f.filePath <;>
        simp [loopSpecReports, countSuccesses_cons, pathsOf, hok,
          List.append_assoc, Nat.add_assoc]

lemma uploadAllFiles_noCancel_eq (env : BatchEnv) (settings : UploadSettings)
    (files : List ITrackedFile) (cfg : SSHConfig)
    (hne : files ≠ [])
    (hs1 : settings.sshConfigPath ≠ "") (hs2 : settings.remoteHost ≠ "")
    (hs3 : settings.remoteRootPath ≠ "")
    (hcfg : readSSHConfig env.fs env.homeDir settings.sshConfigPath
      settings.remoteHost = some cfg)
    (hkey : keyArgOk env.fs cfg = true)
    (hconn : env.connectOk = true)
    (hcancel : ∀ j, env.cancelAt j = false) :
    uploadAllFiles env settings files =
      { connectCalled := true, sessionOpened := true,
        reports := loopSpecReports files.length env.transferOk 0 files,
        attempted := pathsOf files,
        uploadedCount := countSuccesses env.transferOk files,
        cancelled := false, closeCount := 1, batchFailed := false } := by
  unfold uploadAllFiles
  rw [if_neg (by simp [hne]), if_neg (by simp [hs1, hs2, hs3])]
  simp only [hcfg]
  rw [if_neg (by simp [hkey]), if_neg (by simp [hconn])]
  rw [runLoop_noCancel env files.length hcancel files 0 ⟨[], [], 0, false⟩]
  simp

lemma uploadAllFiles_cancel_eq (env : BatchEnv) (settings : UploadSettings)
    (files : List ITrackedFile) (cfg : SSHConfig) (k : Nat)
    (hk : k < files.length)
    (hs1 : settings.sshConfigPath ≠ "") (hs2 : settings.remoteHost ≠ "")
    (hs3 : settings.remoteRootPath ≠ "")
    (hcfg : readSSHConfig env.fs env.homeDir settings.sshConfigPath
      settings.remoteHost = some cfg)
    (hkey : keyArgOk env.fs cfg = true)
    (hconn : env.connectOk = true)
    (hcancel : ∀ j, env.cancelAt j = decide (k ≤ j)) :
    uploadAllFiles env settings files =
      { connectCalled := true, sessionOpened := true,
        reports := loopSpecReports files.length env.transferOk 0 (files.take k),
        attempted := pathsOf (files.take k),
        uploadedCount := countSuccesses env.transferOk (files.take k),
        cancelled := true, closeCount := 1, batchFailed := false } := by
  unfold uploadAllFiles
  rw [if_neg (by omega), if_neg (by simp [hs1, hs2, hs3])]
  simp only [hcfg]
  rw [if_neg (by simp [hkey]), if_neg (by simp [hconn])]
  rw [runLoop_cancel env files.length k hcancel files 0 ⟨[], [], 0, false⟩
    (Nat.zero_le k) (by simpa using hk)]
  simp

lemma loopSpecReports_getElem (n : Nat) (ok : String → Bool) :
    ∀ (files : List ITrackedFile) (u i : Nat),
    (loopSpecReports n ok u files)[i]? = (files[i]?).map (fun f =>
      ((100 / (n : Rat)) * ((u + countSuccesses ok (files.take i) : Nat) : Rat),
       "正在上传: " ++ basename f.filePath)) := by
  intro files
  induction files with
  | nil => intro u i; simp [loopSpecReports]
  | cons f rest ih =>
    intro u i
    cases i with
    | zero => simp [loopSpecReports, countSuccesses]
    | succ i =>
      by_cases hok : ok f.filePath <;>
        simp [loopSpecReports, hok, List.take_succ_cons, countSuccesses_cons,
          ih, Nat.add_assoc]

lemma updateFirst_pathsOf : ∀ (files : List ITrackedFile) (fp st : String) (mt : Nat),
    pathsOf (updateFirst files fp st mt) = pathsOf files := by
  intro files
  induction files with
  | nil => intro fp st mt; rfl
  | cons f rest ih =>
    intro fp st mt
    by_cases h : f.filePath = fp
    · simp [updateFirst, h, pathsOf]
    · have hr := ih fp st mt
      simp only [pathsOf] at hr
      simp [updateFirst, h, pathsOf, hr]

lemma updateFirst_mem_of_ne : ∀ (files : List ITrackedFile) (fp st : String)
    (mt : Nat) (f : ITrackedFile), f ∈ files → f.filePath ≠ fp →
    f ∈ updateFirst files fp st mt := by
  intro files
  induction files with
  | nil => intro _ _ _ f hf; cases hf
  | cons g rest ih =>
    intro fp st mt f hf hne
    rcases List.mem_cons.mp hf with h | h
    · subst h
      rw [updateFirst, if_neg hne]
      exact List.mem_cons_self _ _
    · by_cases hg : g.filePath = fp
      · rw [updateFirst, if_pos hg]
        exact List.mem_cons_of_mem _ h
      · rw [updateFirst, if_neg hg]
        exact List.mem_cons_of_mem _ (ih fp st mt f h hne)

lemma updateFirst_exists_path : ∀ (files : List ITrackedFile) (fp st : String)
    (mt : Nat) (f : ITrackedFile), f ∈ files →
    ∃ g ∈ updateFirst files fp st mt, g.filePath = f.filePath := by
  intro files
  induction files with
  | nil => intro _ _ _ f hf; cases hf
  | cons g rest ih =>
    intro fp st mt f hf
    rcases List.mem_cons.mp hf with h | h
    · subst h
      by_cases hg : f.filePath = fp
      · rw [updateFirst, if_pos hg]
        exact ⟨_, List.mem_cons_self _ _, rfl⟩
      · rw [updateFirst, if_neg hg]
        exact ⟨f, List.mem_cons_self _ _, rfl⟩
    · by_cases hg : g.filePath = fp
      · rw [updateFirst, if_pos hg]
        exact ⟨f, List.mem_cons_of_mem _ h, rfl⟩
      · rw [updateFirst, if_neg hg]
        rcases ih fp st mt f h with ⟨g2, hg2, hp⟩
        exact ⟨g2, List.mem_cons_of_mem _ hg2, hp⟩

lemma mem_pathsOf {files : List ITrackedFile} {p : String} :
    p ∈ pathsOf files ↔ ∃ f ∈ files, f.filePath = p := by
  simp [pathsOf]

lemma processLine_pathsOf (fs : FSView) (root line : String)
    (files : List ITrackedFile) :
    pathsOf (processLine fs root files line) = pathsOf files ∨
    (pathsOf (processLine fs root files line) =
        pathsOf files ++ [lineTargetPath root line] ∧
      lineTargetPath root line ∉ pathsOf files) := by
  unfold processLine
  by_cases hex : fs.fsExists (lineTargetPath root line)
  · rw [if_pos hex]
    by_cases hany : files.any (fun f => decide (f.filePath = lineTargetPath root line))
    · rw [if_pos hany]
      exact Or.inl (updateFirst_pathsOf _ _ _ _)
    · rw [if_neg hany]
      refine Or.inr ⟨by simp [pathsOf], ?_⟩
      intro hmem
      rcases mem_pathsOf.mp hmem with ⟨f, hf, hp⟩
      exact hany (List.any_eq_true.mpr ⟨f, hf, by simp [hp]⟩)
  · rw [if_neg hex]
    exact Or.inl rfl

lemma processLine_nodup (fs : FSView) (root line : String)
    (files : List ITrackedFile) (h : (pathsOf files).Nodup) :
    (pathsOf (processLine fs root files line)).Nodup := by
  rcases processLine_pathsOf fs root line files with heq | ⟨heq, hnm⟩
  · rw [heq]; exact h
  · rw [heq]
    simp [List.nodup_append, h, hnm]

lemma processLine_mem_pathsOf (fs : FSView) (root line : String)
    (files : List ITrackedFile) (p : String) (h : p ∈ pathsOf files) :
    p ∈ pathsOf (processLine fs root files line) := by
  rcases processLine_pathsOf fs root line files with heq | ⟨heq, _⟩
  · rw [heq]; exact h
  · rw [heq]; exact List.mem_append_left _ h

lemma processLine_target_mem (fs : FSView) (root line : String)
    (files : List ITrackedFile)
    (hex : fs.fsExists (lineTargetPath root line) = true) :
    lineTargetPath root line ∈ pathsOf (processLine fs root files line) := by
  unfold processLine
  rw [if_pos hex]
  by_cases hany : files.any (fun f => decide (f.filePath = lineTargetPath root line))
  · rw [if_pos hany]
    rw [updateFirst_pathsOf]
    rcases List.any_eq_true.mp hany with ⟨f, hf, hp⟩
    simp at hp
    exact mem_pathsOf.mpr ⟨f, hf, hp⟩
  · rw [if_neg hany]
    simp [pathsOf]

lemma processLine_mem_entry (fs : FSView) (root line : String)
    (files : List ITrackedFile) (f : ITrackedFile) (hf : f ∈ files)
    (hne : f.filePath ≠ lineTargetPath root line) :
    f ∈ processLine fs root files line := by
  unfold processLine
  by_cases hex : fs.fsExists (lineTargetPath root line)
  · rw [if_pos hex]
    by_cases hany : files.any (fun g => decide (g.filePath = lineTargetPath root line))
    · rw [if_pos hany]
      exact updateFirst_mem_of_ne _ _ _ _ f hf hne
    · rw [if_neg hany]
      exact List.mem_append_left _ hf
  · rw [if_neg hex]
    exact hf

lemma processLine_exists_path (fs : FSView) (root line : String)
    (files : List ITrackedFile) (p : String) (hf : ∃ g ∈ files, g.filePath = p) :
    ∃ g ∈ processLine fs root files line, g.filePath = p := by
  rcases hf with ⟨f, hf, hp⟩
  unfold processLine
  by_cases hex : fs.fsExists (lineTargetPath root line)
  · rw [if_pos hex]
    by_cases hany : files.any (fun g => decide (g.filePath = lineTargetPath root line))
    · rw [if_pos hany]
      rcases updateFirst_exists_path files _ _ _ f hf with ⟨g, hg, hgp⟩
      exact ⟨g, hg, hgp.trans hp⟩
    · rw [if_neg hany]
      exact ⟨f, List.mem_append_left _ hf, hp⟩
  · rw [if_neg hex]
    exact ⟨f, hf, hp⟩

lemma foldl_processLine_nodup (fs : FSView) (root : String) :
    ∀ (lines : List String) (files : List ITrackedFile),
    (pathsOf files).Nodup →
    (pathsOf (lines.foldl (processLine fs root) files)).Nodup := by
  intro lines
  induction lines with
  | nil => intro files h; exact h
  | cons line rest ih =>
    intro files h
    exact ih _ (processLine_nodup fs root line files h)

lemma foldl_processLine_mem_pathsOf (fs : FSView) (root : String) :
    ∀ (lines : List String) (files : List ITrackedFile) (p : String),
    p ∈ pathsOf files → p ∈ pathsOf (lines.foldl (processLine fs root) files) := by
  intro lines
  induction lines with
  | nil => intro files p h; exact h
  | cons line rest ih =>
    intro files p h
    exact ih _ p (processLine_mem_pathsOf fs root line files p h)

lemma foldl_processLine_target_mem (fs : FSView) (root : String) :
    ∀ (lines : List String) (files : List ITrackedFile) (p : String),
    p ∈ lines.map (lineTargetPath root) → fs.fsExists p = true →
    p ∈ pathsOf (lines.foldl (processLine fs root) files) := by
  intro lines
  induction lines with
  | nil => intro files p h; cases h
  | cons line rest ih =>
    intro files p h hex
    rcases List.mem_cons.mp h with h | h
    · subst h
      exact foldl_processLine_mem_pathsOf fs root rest _ _
        (processLine_target_mem fs root line files hex)
    · exact ih _ p h hex

lemma foldl_processLine_mem_entry (fs : FSView) (root : String) :
    ∀ (lines : List String) (files : List ITrackedFile) (f : ITrackedFile),
    f ∈ files → (∀ line ∈ lines, lineTargetPath root line ≠ f.filePath) →
    f ∈ lines.foldl (processLine fs root) files := by
  intro lines
  induction lines with
  | nil => intro files f hf _; exact hf
  | cons line rest ih =>
    intro files f hf hne
    exact ih _ f
      (processLine_mem_entry fs root line files f hf
        (fun h => hne line (List.mem_cons_self _ _) h.symm))
      (fun l hl => hne l (List.mem_cons_of_mem _ hl))

lemma foldl_processLine_exists_path (fs : FSView) (root : String) :
    ∀ (lines : List String) (files : List ITrackedFile) (p : String),
    (∃ g ∈ files, g.filePath = p) →
    ∃ g ∈ lines.foldl (processLine fs root) files, g.filePath = p := by
  intro lines
  induction lines with
  | nil => intro files p h; exact h
  | cons line rest ih =>
    intro files p h
    exact ih _ p (processLine_exists_path fs root line files p h)

lemma scanGitStatus_nodup (fs : FSView) (root : String) (res : Option String)
    (files : List ITrackedFile) (h : (pathsOf files).Nodup) :
    (pathsOf (scanGitStatus fs root res files)).Nodup := by
  cases res with
  | none => exact h
  | some stdout => exact foldl_processLine_nodup fs root (splitLines stdout) files h

lemma scanGitStatus_scanned_mem (fs : FSView) (root stdout : String)
    (files : List ITrackedFile) (p : String)
    (h : p ∈ scannedExistingPaths fs root stdout) :
    p ∈ pathsOf (scanGitStatus fs root (some stdout) files) := by
  rcases List.mem_filter.mp h with ⟨hmem, hex⟩
  exact foldl_processLine_target_mem fs root (splitLines stdout) files p hmem hex

lemma refreshFolder_nodup (fs : FSView) (git : GitView)
    (files : List ITrackedFile) (folder : String)
    (h : (pathsOf files).Nodup) :
    (pathsOf (refreshFolder fs git files folder)).Nodup := by
  unfold refreshFolder
  cases git.revParse folder with
  | none => exact h
  | some out => exact scanGitStatus_nodup fs _ _ files h

lemma refreshFolder_mem_entry (fs : FSView) (git : GitView)
    (files : List ITrackedFile) (folder : String) (f : ITrackedFile)
    (hf : f ∈ files) (hne : f.filePath ∉ folderReportedPaths git folder) :
    f ∈ refreshFolder fs git files folder := by
  rcases hrev : git.revParse folder with _ | out
  · simpa [refreshFolder, hrev] using hf
  · rcases hst : git.statusOut (strTrim out) with _ | stdout
    · simpa [refreshFolder, scanGitStatus, hrev, hst] using hf
    · simp only [refreshFolder, scanGitStatus, hrev, hst]
      refine foldl_processLine_mem_entry fs _ _ files f hf ?_
      intro line hl heq
      refine hne ?_
      simp only [folderReportedPaths, hrev, hst]
      exact List.mem_map.mpr ⟨line, hl, heq⟩

lemma refreshFolder_exists_path (fs : FSView) (git : GitView)
    (files : List ITrackedFile) (folder : String) (p : String)
    (h : ∃ g ∈ files, g.filePath = p) :
    ∃ g ∈ refreshFolder fs git files folder, g.filePath = p := by
  rcases hrev : git.revParse folder with _ | out
  · simpa [refreshFolder, hrev] using h
  · rcases hst : git.statusOut (strTrim out) with _ | stdout
    · simpa [refreshFolder, scanGitStatus, hrev, hst] using h
    · simp only [refreshFolder, scanGitStatus, hrev, hst]
      exact foldl_processLine_exists_path fs _ _ files p h

lemma updateFileStatus_nodup (fs : FSView) (git : GitView) :
    ∀ (folders : List String) (files : List ITrackedFile),
    (pathsOf files).Nodup →
    (pathsOf (updateFileStatus fs git folders files)).Nodup := by
  intro folders
  induction folders with
  | nil => intro files h; exact h
  | cons folder rest ih =>
    intro files h
    exact ih _ (refreshFolder_nodup fs git files folder h)

lemma updateFileStatus_mem_entry (fs : FSView) (git : GitView) :
    ∀ (folders : List String) (files : List ITrackedFile) (f : ITrackedFile),
    f ∈ files → f.filePath ∉ scanReportedPaths git folders →
    f ∈ updateFileStatus fs git folders files := by
  intro folders
  induction folders with
  | nil => intro files f hf _; exact hf
  | cons folder rest ih =>
    intro files f hf hne
    simp only [scanReportedPaths, List.flatMap_cons, List.mem_append] at hne
    push_neg at hne
    exact ih _ f (refreshFolder_mem_entry fs git files folder f hf hne.1)
      (by simpa [scanReportedPaths] using hne.2)

lemma updateFileStatus_exists_path (fs : FSView) (git : GitView) :
    ∀ (folders : List String) (files : List ITrackedFile) (p : String),
    (∃ g ∈ files, g.filePath = p) →
    ∃ g ∈ updateFileStatus fs git folders files, g.filePath = p := by
  intro folders
  induction folders with
  | nil => intro files p h; exact h
  | cons folder rest ih =>
    intro files p h
    exact ih _ p (refreshFolder_exists_path fs git files folder p h)

lemma countP_filePath_eq_one :
    ∀ {files : List ITrackedFile} {p : String},
    (pathsOf files).Nodup → p ∈ pathsOf files →
    files.countP (fun f => decide (f.filePath = p)) = 1 := by
  intro files
  induction files with
  | nil => intro p _ hm; simp [pathsOf] at hm
  | cons f rest ih =>
    intro p hd hm
    simp only [pathsOf, List.map_cons, List.nodup_cons] at hd
    rcases hd with ⟨hnotin, hdrest⟩
    simp only [pathsOf, List.map_cons, List.mem_cons] at hm
    rw [List.countP_cons]
    rcases hm with h | h
    · subst h
      have hzero : rest.countP (fun g => decide (g.filePath = f.filePath)) = 0 := by
        rw [List.countP_eq_zero]
        intro g hg
        simp only [decide_eq_true_eq]
        intro hgp
        exact hnotin (List.mem_map.mpr ⟨g, hg, hgp⟩)
      simp [hzero]
    · have hne : ¬(f.filePath = p) := by
        intro heq
        exact hnotin (heq ▸ h)
      have := ih hdrest (by simpa [pathsOf] using h)
      simp [this, hne]

lemma commitRemoveOne_nodup (root out : String) (files : List ITrackedFile)
    (h : (pathsOf files).Nodup) :
    (pathsOf (commitRemoveOne root out files)).Nodup := by
  unfold commitRemoveOne pathsOf
  exact h.sublist (List.Sublist.map _ (List.filter_sublist files))

lemma handleGitCommit_nodup (git : GitView) :
    ∀ (repos : List String) (files : List ITrackedFile),
    (pathsOf files).Nodup →
    (pathsOf (handleGitCommit git repos files)).Nodup := by
  intro repos
  induction repos with
  | nil => intro files h; exact h
  | cons root rest ih =>
    intro files h
    unfold handleGitCommit
    cases git.diffTree root with
    | none => exact h
    | some out => exact ih _ (commitRemoveOne_nodup root out files h)

lemma removeFile_nodup (files : List ITrackedFile) (fp : String)
    (h : (pathsOf files).Nodup) :
    (pathsOf (removeFile files fp).1).Nodup := by
  unfold removeFile pathsOf
  exact h.sublist (List.Sublist.map _ (List.filter_sublist files))

/-- C1 (counterexample): the batch upload does not validate credentials —
with a resolved profile that has no user (the config names only a
`HostName`), `uploadAllFiles` still issues the `connect` call. -/
theorem C1_counterexample :
    readSSHConfig fsC1 "/home/u" "/custom/conf" "myhost" =
      some { hostName := some "1.2.3.4" } ∧
    ({ hostName := some "1.2.3.4" } : SSHConfig).user = none ∧
    (uploadAllFiles envC1 settingsC1 [trackedA]).connectCalled = true := by
  refine ⟨by decide, rfl, by decide⟩

/-- C1 (amended): only the single-file path (`sftpUploadFile`) validates the
profile — a missing user, a missing key path, or a key path that does not
exist each abort before any connect and before a session opens; the batch
path avoids the connect call only when a configured key path cannot be read
(the key file read throws before `connect`). -/
theorem C1_theorem :
    (∀ (env : SingleEnv) (scp rh : String) (cfg : SSHConfig),
      (cfg.user = none ∨ cfg.privateKey = none ∨
        (∃ k, cfg.privateKey = some k ∧ env.fs.fsExists k = false)) →
      (sftpUploadFile env scp rh (some cfg)).connectCalled = false ∧
      (sftpUploadFile env scp rh (some cfg)).sessionOpened = false) ∧
    (∀ (env : BatchEnv) (settings : UploadSettings) (files : List ITrackedFile)
      (cfg : SSHConfig) (k : String),
      readSSHConfig env.fs env.homeDir settings.sshConfigPath
        settings.remoteHost = some cfg →
      cfg.privateKey = some k → env.fs.readFile k = none →
      (uploadAllFiles env settings files).connectCalled = false) := by
  constructor
  · intro env scp rh cfg hbad
    rcases hbad with h | h | ⟨k, hk, hex⟩
    · simp [sftpUploadFile, h, singleFailBeforeConnect]
    · cases hu : cfg.user with
      | none => simp [sftpUploadFile, hu, singleFailBeforeConnect]
      | some u => simp [sftpUploadFile, hu, h, singleFailBeforeConnect]
    · cases hu : cfg.user with
      | none => simp [sftpUploadFile, hu, singleFailBeforeConnect]
      | some u => simp [sftpUploadFile, hu, hk, hex, singleFailBeforeConnect]
  · intro env settings files cfg k hcfg hk hread
    unfold uploadAllFiles
    by_cases h0 : files.length = 0
    · simp [h0, emptyBatchResult]
    · rw [if_neg h0]
      by_cases hs : settings.sshConfigPath = "" ∨ settings.remoteHost = "" ∨
          settings.remoteRootPath = ""
      · simp [hs, emptyBatchResult]
      · rw [if_neg hs]
        simp only [hcfg]
        have hkey : keyArgOk env.fs cfg = false := by
          simp [keyArgOk, hk, hread]
        rw [if_pos hkey]
        simp [emptyBatchResult]

/-- C1 (witness): a profile without a user makes the single-file path fail
before connecting, and a configured but unreadable key file makes the batch
path fail before connecting. -/
theorem C1_witness :
    (sftpUploadFile envC1single "/custom/conf" "myhost"
        (some { hostName := some "1.2.3.4" })).connectCalled = false ∧
    (uploadAllFiles envC1b settingsOk [trackedA]).connectCalled = false :=
  ⟨(C1_theorem.1 envC1single "/custom/conf" "myhost" _ (Or.inl rfl)).1,
   C1_theorem.2 envC1b settingsOk [trackedA]
     { user := some "u1", privateKey := some "/home/u/.ssh/id" }
     "/home/u/.ssh/id" (by decide) rfl (by decide)⟩

/-- C2 (counterexample): the scan trims the two-character code before
classifying, so the raw code with a leading space, `" M"`, is classified
`staged`, not `unstaged` as the claim states. -/
theorem C2_counterexample :
    statusOfRawCode " M" = "staged" ∧ statusOfRawCode " M" ≠ "unstaged" := by
  decide

/-- C2 (amended): the classification applied during a scan maps `"M"` and
`"A "` to `staged`, `"??"` to `untracked`, `" M"` (leading space) to
`staged` (the code is trimmed first), and every code whose trimmed form
starts with none of `A`, `M`, `?` to `unstaged`. -/
theorem C2_theorem :
    statusOfRawCode "M" = "staged" ∧ statusOfRawCode "A " = "staged" ∧
    statusOfRawCode "??" = "untracked" ∧ statusOfRawCode " M" = "staged" ∧
    (∀ code : String, strStartsWith (strTrim code) "A" = false →
      strStartsWith (strTrim code) "M" = false →
      strStartsWith (strTrim code) "?" = false →
      statusOfRawCode code = "unstaged") := by
  refine ⟨by decide, by decide, by decide, by decide, ?_⟩
  intro code hA hM hQ
  simp [statusOfRawCode, classifyStatus, hA, hM, hQ]

/-- C2 (witness): a deleted-file code `"D "` is unrecognized and maps to
`unstaged`. -/
theorem C2_witness :
    strStartsWith (strTrim "D ") "A" = false ∧ statusOfRawCode "D " = "unstaged" :=
  ⟨by decide, C2_theorem.2.2.2.2 "D " (by decide) (by decide) (by decide)⟩

/-- C3 (counterexample): with both the default system config and the
caller-supplied config present and readable, resolution reads the system
default, not the supplied path — the fallback order of the claim is
reversed in the code. -/
theorem C3_counterexample :
    fsC3.fsExists "/custom/conf" = true ∧
    chooseConfigFile fsC3 "/home/u" "/custom/conf" = some "/home/u/.ssh/config" ∧
    "/home/u/.ssh/config" ≠ "/custom/conf" ∧
    readSSHConfig fsC3 "/home/u" "/custom/conf" "alias" =
      some { user := some "default-user" } := by
  refine ⟨by decide, by decide, by decide, by decide⟩

/-- C3 (amended): the default system path `~/.ssh/config` is tried first and
the caller-supplied path is used only when the default does not exist;
resolution fails exactly when the default is absent and the supplied path
is empty or absent. -/
theorem C3_theorem :
    ∀ (fs : FSView) (homeDir configPath : String),
    (fs.fsExists (defaultSSHConfigPath homeDir) = true →
      chooseConfigFile fs homeDir configPath = some (defaultSSHConfigPath homeDir)) ∧
    (fs.fsExists (defaultSSHConfigPath homeDir) = false → configPath ≠ "" →
      fs.fsExists configPath = true →
      chooseConfigFile fs homeDir configPath = some configPath) ∧
    (chooseConfigFile fs homeDir configPath = none ↔
      fs.fsExists (defaultSSHConfigPath homeDir) = false ∧
        (configPath = "" ∨ fs.fsExists configPath = false)) := by
  intro fs homeDir configPath
  refine ⟨fun h => by simp [chooseConfigFile, h],
    fun h hne hex => by simp [chooseConfigFile, h, hne, hex], ?_⟩
  unfold chooseConfigFile
  by_cases h1 : fs.fsExists (defaultSSHConfigPath homeDir) <;>
    by_cases h2 : configPath = "" <;>
    by_cases h3 : fs.fsExists configPath <;>
      simp [h1, h2, h3]

/-- C3 (witness): when the default config exists it is chosen, whatever the
supplied path. -/
theorem C3_witness :
    chooseConfigFile fsC3 "/home/u" "/zzz" = some "/home/u/.ssh/config" :=
  (C3_theorem fsC3 "/home/u" "/zzz").1 (by decide)

/-- C4 (counterexample): during a 2-item batch where both transfers succeed,
the two per-item progress increments are `0` and `50` — they are neither
equal to each other nor to the claimed constant `1 / n` (as a fraction,
`1 / 2`; as a percentage, `50`) for every item. -/
theorem C4_counterexample :
    (uploadAllFiles envC4 settingsOk [trackedA, trackedB]).reports.map Prod.fst =
      [0, 50] ∧ (0 : Rat) ≠ 50 ∧ (0 : Rat) ≠ 1 / 2 := by
  have h := uploadAllFiles_noCancel_eq envC4 settingsOk [trackedA, trackedB] cfgOk
    (by decide) (by decide) (by decide) (by decide) (by decide) (by decide) rfl
    (fun j => rfl)
  refine ⟨?_, by norm_num, by norm_num⟩
  rw [h]
  simp [loopSpecReports, envC4]
  norm_num

/-- C4 (amended): before each item, the reported increment equals
`100 / totalItems` times the number of files uploaded successfully so far
(0 for the first item, so the per-item increments differ in general), and
the report's label names the file currently being transferred. -/
theorem C4_theorem :
    ∀ (env : BatchEnv) (settings : UploadSettings) (files : List ITrackedFile)
      (cfg : SSHConfig),
    (∀ j, env.cancelAt j = false) →
    readSSHConfig env.fs env.homeDir settings.sshConfigPath
      settings.remoteHost = some cfg →
    keyArgOk env.fs cfg = true → env.connectOk = true →
    settings.sshConfigPath ≠ "" → settings.remoteHost ≠ "" →
    settings.remoteRootPath ≠ "" →
    (uploadAllFiles env settings files).reports.length = files.length ∧
    ∀ i : Nat, (uploadAllFiles env settings files).reports[i]? =
      (files[i]?).map (fun f =>
        ((100 / (files.length : Rat)) *
           ((countSuccesses env.transferOk (files.take i) : Nat) : Rat),
         "正在上传: " ++ basename f.filePath)) := by
  intro env settings files cfg hcancel hcfg hkey hconn hs1 hs2 hs3
  rcases files with _ | ⟨f, rest⟩
  · simp [uploadAllFiles, emptyBatchResult]
  · rw [uploadAllFiles_noCancel_eq env settings (f :: rest) cfg (by simp)
      hs1 hs2 hs3 hcfg hkey hconn hcancel]
    constructor
    · rw [loopSpecReports_length]
    · intro i
      rw [loopSpecReports_getElem]
      simp

/-- C4 (witness): in the 2-item batch, the second item's report carries
increment `50` (= `100 / 2` times the one success so far) and names the
file being transferred. -/
theorem C4_witness :
    (uploadAllFiles envC4 settingsOk [trackedA, trackedB]).reports.length = 2 ∧
    (uploadAllFiles envC4 settingsOk [trackedA, trackedB]).reports[1]? =
      some (50, "正在上传: b.ts") := by
  have h := C4_theorem envC4 settingsOk [trackedA, trackedB] cfgOk (fun j => rfl)
    (by decide) (by decide) rfl (by decide) (by decide) (by decide)
  refine ⟨h.1.trans (by decide), (h.2 1).trans ?_⟩
  have hb : "正在上传: " ++ basename "/ws/b.ts" = "正在上传: b.ts" := by decide
  simp [countSuccesses, envC4, trackedA, trackedB, hb]
  norm_num

/-- C5: the tracked set never holds two entries with the same `filePath`:
starting from a deduplicated set, a refresh, a manual removal and a commit
removal all preserve deduplication, and a successful scan that reports an
existing file leaves exactly one entry for that path. -/
theorem C5_theorem :
    ∀ (fs : FSView) (git : GitView) (folders repos : List String)
      (files : List ITrackedFile) (fp p root out : String),
    (pathsOf files).Nodup →
    ((pathsOf (updateFileStatus fs git folders files)).Nodup ∧
     (pathsOf (removeFile files fp).1).Nodup ∧
     (pathsOf (handleGitCommit git repos files)).Nodup ∧
     (p ∈ scannedExistingPaths fs root out →
       (scanGitStatus fs root (some out) files).countP
         (fun f => decide (f.filePath = p)) = 1)) := by
  intro fs git folders repos files fp p root out h
  refine ⟨updateFileStatus_nodup fs git folders files h,
    removeFile_nodup files fp h,
    handleGitCommit_nodup git repos files h, ?_⟩
  intro hmem
  exact countP_filePath_eq_one (scanGitStatus_nodup fs root (some out) files h)
    (scanGitStatus_scanned_mem fs root out files p hmem)

/-- C5 (witness): a scan whose output reports the same file twice leaves
exactly one tracked entry for it. -/
theorem C5_witness :
    (pathsOf [trackedA]).Nodup ∧
    (scanGitStatus fsAll "/repo" (some " M a.ts\n?? a.ts") [trackedA]).countP
      (fun f => decide (f.filePath = "/repo/a.ts")) = 1 :=
  ⟨by decide, (C5_theorem fsAll gitC9 [] [] [trackedA] "" "/repo/a.ts" "/repo"
    " M a.ts\n?? a.ts" (by decide)).2.2.2 (by decide)⟩

/-- C6: per-file failure isolation — with no cancellation and an open
session, every item is attempted in order regardless of individual transfer
failures, the success count is the number of successful transfers, and the
batch is not cancelled. -/
theorem C6_theorem :
    ∀ (env : BatchEnv) (settings : UploadSettings) (files : List ITrackedFile)
      (cfg : SSHConfig),
    (∀ j, env.cancelAt j = false) →
    readSSHConfig env.fs env.homeDir settings.sshConfigPath
      settings.remoteHost = some cfg →
    keyArgOk env.fs cfg = true → env.connectOk = true →
    settings.sshConfigPath ≠ "" → settings.remoteHost ≠ "" →
    settings.remoteRootPath ≠ "" →
    (uploadAllFiles env settings files).attempted = pathsOf files ∧
    (uploadAllFiles env settings files).uploadedCount =
      countSuccesses env.transferOk files ∧
    (uploadAllFiles env settings files).cancelled = false := by
  intro env settings files cfg hcancel hcfg hkey hconn hs1 hs2 hs3
  rcases files with _ | ⟨f, rest⟩
  · simp [uploadAllFiles, emptyBatchResult, pathsOf, countSuccesses]
  · rw [uploadAllFiles_noCancel_eq env settings (f :: rest) cfg (by simp)
      hs1 hs2 hs3 hcfg hkey hconn hcancel]
    exact ⟨rfl, rfl, rfl⟩

/-- C6 (witness): in a 3-file batch where the second file's transfer throws,
all three files are attempted, 2 succeed (so 1 fails), and the batch is not
cancelled. -/
theorem C6_witness :
    (uploadAllFiles envC6 settingsOk [trackedA, trackedB, trackedC]).attempted =
      ["/ws/a.ts", "/ws/b.ts", "/ws/c.ts"] ∧
    (uploadAllFiles envC6 settingsOk [trackedA, trackedB, trackedC]).uploadedCount = 2 ∧
    (uploadAllFiles envC6 settingsOk [trackedA, trackedB, trackedC]).cancelled = false := by
  have h := C6_theorem envC6 settingsOk [trackedA, trackedB, trackedC] cfgOk
    (fun j => rfl) (by decide) (by decide) rfl (by decide) (by decide) (by decide)
  exact ⟨h.1.trans (by decide), h.2.1.trans (by decide), h.2.2⟩

/-- C7: the session, once opened, is closed exactly once on every exit path
of the batch (the close count always equals 1 when a session opened and 0
otherwise); and when cancellation is signaled after `k` files complete,
exactly the first `k` files have outcomes, the run is marked cancelled, and
the session is still closed exactly once. -/
theorem C7_theorem :
    (∀ (env : BatchEnv) (settings : UploadSettings) (files : List ITrackedFile),
      (uploadAllFiles env settings files).closeCount =
        (if (uploadAllFiles env settings files).sessionOpened then 1 else 0)) ∧
    (∀ (env : BatchEnv) (settings : UploadSettings) (files : List ITrackedFile)
      (cfg : SSHConfig) (k : Nat),
      (∀ j, env.cancelAt j = decide (k ≤ j)) → k < files.length →
      readSSHConfig env.fs env.homeDir settings.sshConfigPath
        settings.remoteHost = some cfg →
      keyArgOk env.fs cfg = true → env.connectOk = true →
      settings.sshConfigPath ≠ "" → settings.remoteHost ≠ "" →
      settings.remoteRootPath ≠ "" →
      (uploadAllFiles env settings files).attempted = pathsOf (files.take k) ∧
      (uploadAllFiles env settings files).reports.length = k ∧
      (uploadAllFiles env settings files).cancelled = true ∧
      (uploadAllFiles env settings files).closeCount = 1) := by
  constructor
  · intro env settings files
    unfold uploadAllFiles
    repeat' split
    all_goals first
    | rfl
    | (exfalso; simp_all [emptyBatchResult])
  · intro env settings files cfg k hcancel hk hcfg hkey hconn hs1 hs2 hs3
    rw [uploadAllFiles_cancel_eq env settings files cfg k hk hs1 hs2 hs3 hcfg
      hkey hconn hcancel]
    refine ⟨rfl, ?_, rfl, rfl⟩
    rw [loopSpecReports_length, List.length_take]
    omega

/-- C7 (witness): with 5 files and cancellation signaled after the second
completes, exactly the first 2 files were attempted, 2 per-item reports were
issued, the run is marked cancelled, and the session was closed once. -/
theorem C7_witness :
    (uploadAllFiles envC7 settingsOk
      [trackedA, trackedB, trackedC, trackedD, trackedE]).attempted =
      ["/ws/a.ts", "/ws/b.ts"] ∧
    (uploadAllFiles envC7 settingsOk
      [trackedA, trackedB, trackedC, trackedD, trackedE]).reports.length = 2 ∧
    (uploadAllFiles envC7 settingsOk
      [trackedA, trackedB, trackedC, trackedD, trackedE]).cancelled = true ∧
    (uploadAllFiles envC7 settingsOk
      [trackedA, trackedB, trackedC, trackedD, trackedE]).closeCount = 1 := by
  have h := C7_theorem.2 envC7 settingsOk
    [trackedA, trackedB, trackedC, trackedD, trackedE] cfgOk 2 (fun j => rfl)
    (by decide) (by decide) (by decide) rfl (by decide) (by decide) (by decide)
  exact ⟨h.1.trans (by decide), h.2.1, h.2.2.1, h.2.2.2⟩

/-- C8: a commit event removes exactly the tracked entries whose path,
resolved against the repository root, is among the files the commit query
reports; concretely, from tracked `{a, b, c}` with `{a, c}` committed, the
set `{b}` remains. -/
theorem C8_theorem :
    (∀ (root out : String) (files : List ITrackedFile) (f : ITrackedFile),
      f ∈ commitRemoveOne root out files ↔
        (f ∈ files ∧ f.filePath ∉ committedPaths root out)) ∧
    handleGitCommit gitC8 ["/repo"] [fileA8, fileB8, fileC8] = [fileB8] := by
  constructor
  · intro root out files f
    simp [commitRemoveOne, List.mem_filter]
  · decide

/-- C8 (witness): the untouched entry survives the commit removal. -/
theorem C8_witness :
    fileB8 ∈ commitRemoveOne "/repo" "a.ts\nc.ts" [fileA8, fileB8, fileC8] :=
  (C8_theorem.1 "/repo" "a.ts\nc.ts" [fileA8, fileB8, fileC8] fileB8).mpr
    ⟨by decide, by decide⟩

/-- C9: a refresh never deletes a tracked entry — every entry keeps a
successor with its path, and an entry whose path no scan reports survives
the refresh completely unchanged. -/
theorem C9_theorem :
    ∀ (fs : FSView) (git : GitView) (folders : List String)
      (files : List ITrackedFile) (f : ITrackedFile),
    f ∈ files →
    ((∃ g ∈ updateFileStatus fs git folders files, g.filePath = f.filePath) ∧
     (f.filePath ∉ scanReportedPaths git folders →
       f ∈ updateFileStatus fs git folders files)) := by
  intro fs git folders files f hf
  exact ⟨updateFileStatus_exists_path fs git folders files f.filePath ⟨f, hf, rfl⟩,
    fun hne => updateFileStatus_mem_entry fs git folders files f hf hne⟩

/-- C9 (witness): an entry not reported by the scan survives the refresh
with all fields unchanged. -/
theorem C9_witness :
    trackedZ ∈ [trackedZ] ∧
    trackedZ ∈ updateFileStatus fsAll gitC9 ["/ws"] [trackedZ] :=
  ⟨by decide, (C9_theorem fsAll gitC9 ["/ws"] [trackedZ] trackedZ (by decide)).2
    (by decide)⟩

/-- C10: the upload operations never mutate the tracked set — both provider
upload entry points return the tracker state exactly as received, and every
`isFileTracked` query is unchanged. -/
theorem C10_theorem :
    ∀ (st : List ITrackedFile) (env : SingleEnv) (benv : BatchEnv)
      (settings : UploadSettings) (fp p : String),
    (providerUploadFile st env settings fp).1 = st ∧
    (providerUploadAllFiles st benv settings).1 = st ∧
    isFileTracked (providerUploadFile st env settings fp).1 p =
      isFileTracked st p ∧
    isFileTracked (providerUploadAllFiles st benv settings).1 p =
      isFileTracked st p ∧
    getTrackedFiles (providerUploadFile st env settings fp).1 =
      getTrackedFiles st ∧
    getTrackedFiles (providerUploadAllFiles st benv settings).1 =
      getTrackedFiles st :=
  fun _ _ _ _ _ _ => ⟨rfl, rfl, rfl, rfl, rfl, rfl⟩
